import Mathlib

/-!
Verification development for the ATP Explorer registry indexing and query
engine (`src/index.js`).  JavaScript values are shallowly embedded:

* JS objects used as string-keyed maps become association lists
  `List (String × α)`; property assignment is `jsSet` (update first binding
  in place or append) and property read is `jsGet` (first binding).
* JS `undefined` / absent fields become `Option`.
* JS string truthiness (`""` is falsy) is made explicit at each use site.
* `String.prototype.slice(-n)` becomes `strSliceNeg`, `toLowerCase` becomes
  `jsToLower`, `includes` becomes `strIncludes`, `Array.prototype.slice`
  becomes `jsSlice`, and `parseInt` becomes `jsParseInt` (decimal core:
  optional leading spaces, optional sign, longest digit run; the `0x` radix
  autodetection of JS is not modelled, no claim exercises it).
* A request handler that would throw a `TypeError` (reading a property of
  `undefined`) returns an explicit `jsError` outcome.
-/

namespace Atp

/-- JavaScript object update: replace the value at the first binding of the
key, keeping its position, or append a new binding.  Mirrors property
assignment `obj[k] = v` on a JS object. -/
def jsSet {α : Type} : List (String × α) → String → α → List (String × α)
  | [], k, v => [(k, v)]
  | (a, b) :: t, k, v => if a = k then (a, v) :: t else (a, b) :: jsSet t k v

/-- JavaScript object read `obj[k]`: the value at the first binding of the
key, `none` when the key is absent (JS `undefined`). -/
def jsGet {α : Type} : List (String × α) → String → Option α
  | [], _ => none
  | (a, b) :: t, k => if a = k then some b else jsGet t k

/-- Model of `String.prototype.toLowerCase` (per character, ASCII-faithful). -/
def jsToLower (s : String) : String := ⟨s.data.map Char.toLower⟩

/-- Model of `s.slice(-n)` on a JS string: the last `n` characters, or the
whole string when it is shorter than `n`. -/
def strSliceNeg (s : String) (n : Nat) : String := ⟨s.data.drop (s.data.length - n)⟩

/-- Decision of a prefix relation on character lists, used to model
`String.prototype.includes`. -/
def listIsPref : List Char → List Char → Bool
  | [], _ => true
  | _ :: _, [] => false
  | a :: as, b :: bs => a = b && listIsPref as bs

/-- Occurrence of `n` as a contiguous run inside `h`. -/
def occurs : List Char → List Char → Bool
  | n, [] => listIsPref n []
  | n, c :: t => listIsPref n (c :: t) || occurs n t

/-- Model of the JS call `s.includes(sub)`. -/
def strIncludes (s sub : String) : Bool := occurs sub.data s.data

/-- JS truthiness of a possibly-absent string: `undefined` and `""` are
falsy. -/
def strTruthy : Option String → Bool
  | some s => s != ""
  | none => false

/-- Model of `a || b` on possibly-absent JS strings. -/
def jsOrStr (a b : Option String) : Option String :=
  if strTruthy a then a else b

/-- Model of `a || d` where `d` is a literal default string, as in
`raw.atp || '0.4'`. -/
def jsOrDefault (a : Option String) (d : String) : String :=
  match a with
  | some s => if s == "" then d else s
  | none => d

/-- Value of a list of decimal digit characters, most significant first. -/
def digitsVal (ds : List Char) : Nat :=
  ds.foldl (fun a c => 10 * a + (c.toNat - 48)) 0

/-- Longest leading run of decimal digits, `none` when there is none
(JS `NaN`). -/
def leadDigitsVal (cs : List Char) : Option Nat :=
  let ds := cs.takeWhile Char.isDigit
  if ds.isEmpty then none else some (digitsVal ds)

/-- Model of `parseInt(s)` restricted to its decimal core: skip leading
spaces, read an optional sign, then the longest run of decimal digits;
`none` is JS `NaN`.  (The `0x` radix autodetection of real `parseInt` is
not modelled; no claim exercises it.) -/
def jsParseInt (s : String) : Option Int :=
  match s.data.dropWhile (fun c => c == ' ') with
  | '-' :: rest => (leadDigitsVal rest).map (fun n => -(n : Int))
  | '+' :: rest => (leadDigitsVal rest).map (fun n => (n : Int))
  | cs => (leadDigitsVal cs).map (fun n => (n : Int))

/-- Model of `parseInt(p)` applied to a query parameter that was given the
numeric default `dflt` by destructuring (`const { limit = 100 } = req.query`):
an absent parameter is the default number, which `parseInt` maps to itself. -/
def jsParamInt (p : Option String) (dflt : Int) : Option Int :=
  match p with
  | none => some dflt
  | some s => jsParseInt s

/-- Model of `v || d` on a JS number: `NaN`, `0` and `-0` are falsy. -/
def jsFalsyOr (v : Option Int) (d : Int) : Int :=
  match v with
  | some n => if n = 0 then d else n
  | none => d

/-- Index normalization of `Array.prototype.slice`: a negative index counts
from the end, and indexes are clamped to the array length. -/
def jsSliceIdx (len : Nat) (i : Int) : Nat :=
  if i < 0 then (len + i).toNat else min i.toNat len

/-- Model of `l.slice(s, e)` on a JS array. -/
def jsSlice {α : Type} (l : List α) (s e : Int) : List α :=
  (l.take (jsSliceIdx l.length e)).drop (jsSliceIdx l.length s)

/-- Opaque `proofOfExistence` payload: the summarizer projects out `txid`
and `network`; any further fields are kept opaque in `rest`. -/
structure Poe where
  txid : Option String
  network : Option String
  rest : List (String × String)
deriving DecidableEq

/-- Raw nested `gpg` object of the newer document shape. -/
structure RawGpg where
  fingerprint : Option String
  keyserver : Option String
deriving DecidableEq

/-- Raw nested `wallet` object of the newer document shape. -/
structure RawWallet where
  address : Option String
  proof : Option String
deriving DecidableEq

/-- Raw identity document as parsed from JSON; every field may be absent. -/
structure Raw where
  atp : Option String
  type : Option String
  name : Option String
  description : Option String
  gpg : Option RawGpg
  gpgFingerprint : Option String
  gpgKeyserver : Option String
  platforms : Option (List (String × String))
  wallet : Option RawWallet
  wallets : Option (List (String × String))
  walletProof : Option String
  binding_proofs : Option (List String)
  bindingProofs : Option (List String)
  proofOfExistence : Option Poe
  proof_of_existence : Option Poe
  created : Option String
  signature : Option String
deriving DecidableEq

/-- Canonical identity after normalization.  Wallet values are
`Option String` because `{ btc: raw.wallet.address }` can bind the key
`btc` to JS `undefined` when the nested wallet has no address. -/
structure Identity where
  atp : String
  type : String
  name : Option String
  description : Option String
  gpgFingerprint : Option String
  gpgKeyserver : Option String
  platforms : List (String × String)
  wallets : List (String × Option String)
  walletProof : Option String
  bindingProofs : List String
  proofOfExistence : Option Poe
  created : Option String
  signature : Option String
deriving DecidableEq

/-- Model of `normalizeIdentity` (src/index.js lines 26-43). -/
def normalizeIdentity (raw : Raw) : Identity :=
  { atp := jsOrDefault raw.atp "0.4"
    type := jsOrDefault raw.type "identity"
    name := raw.name
    description := raw.description
    gpgFingerprint := jsOrStr (raw.gpg.bind (fun g => g.fingerprint)) raw.gpgFingerprint
    gpgKeyserver := jsOrStr (raw.gpg.bind (fun g => g.keyserver)) raw.gpgKeyserver
    platforms := raw.platforms.getD []
    wallets :=
      match raw.wallet with
      | some w => [("btc", w.address)]
      | none => (raw.wallets.getD []).map (fun p => (p.1, some p.2))
    walletProof := jsOrStr (raw.wallet.bind (fun w => w.proof)) raw.walletProof
    bindingProofs :=
      match raw.binding_proofs with
      | some l => l
      | none => raw.bindingProofs.getD []
    proofOfExistence :=
      match raw.proofOfExistence with
      | some p => some p
      | none => raw.proof_of_existence
    created := raw.created
    signature := raw.signature }

/-- The four lookup maps of a snapshot (src/index.js lines 67-72). -/
structure Indexes where
  byFingerprint : List (String × Identity)
  byName : List (String × Identity)
  byPlatform : List (String × List (String × Identity))
  byWallet : List (String × Identity)
deriving DecidableEq

def emptyIndexes : Indexes :=
  { byFingerprint := [], byName := [], byPlatform := [], byWallet := [] }

/-- Fingerprint section of the index-building loop (lines 75-82): full
lowercased fingerprint, then its last 16, then its last 8 characters. -/
def fpStep (m : List (String × Identity)) (i : Identity) : List (String × Identity) :=
  match i.gpgFingerprint with
  | some f =>
    if f == "" then m
    else
      let fp := jsToLower f
      jsSet (jsSet (jsSet m fp i) (strSliceNeg fp 16) i) (strSliceNeg fp 8) i
  | none => m

/-- Name section of the index-building loop (lines 84-87). -/
def nameStep (m : List (String × Identity)) (i : Identity) : List (String × Identity) :=
  match i.name with
  | some n => if n == "" then m else jsSet m (jsToLower n) i
  | none => m

/-- Platform section of the index-building loop (lines 89-98); the nested
submap is created on demand and extended in place. -/
def platformStep (m : List (String × List (String × Identity))) (i : Identity) :
    List (String × List (String × Identity)) :=
  i.platforms.foldl
    (fun acc pe =>
      jsSet acc (jsToLower pe.1) (jsSet ((jsGet acc (jsToLower pe.1)).getD []) (jsToLower pe.2) i))
    m

/-- Wallet section of the index-building loop (lines 100-107); only truthy
addresses are indexed. -/
def walletStep (m : List (String × Identity)) (i : Identity) : List (String × Identity) :=
  i.wallets.foldl
    (fun acc we =>
      match we.2 with
      | some a => if a == "" then acc else jsSet acc (jsToLower a) i
      | none => acc)
    m

/-- One iteration of the index-building loop (lines 74-108). -/
def indexIdentity (idx : Indexes) (i : Identity) : Indexes :=
  { byFingerprint := fpStep idx.byFingerprint i
    byName := nameStep idx.byName i
    byPlatform := platformStep idx.byPlatform i
    byWallet := walletStep idx.byWallet i }

def buildIndexes (identities : List Identity) : Indexes :=
  identities.foldl indexIdentity emptyIndexes

/-- In-memory registry.  `indexes` is `none` exactly in the
missing-directory branch of `loadRegistry`, which returns the literal
`{ identities: [], indexes: {} }`: an object with none of the four index
maps, so that any later read of e.g. `indexes.byFingerprint[k]` is an
indexing of `undefined` and throws. -/
structure Registry where
  identities : List Identity
  indexes : Option Indexes
deriving DecidableEq

/-- Model of `loadRegistry` (lines 45-111).  The directory is `none` when
`existsSync` fails; otherwise it is the list of parse attempts of the
`.json` files in listing order, where `none` entries are files whose JSON
parse threw and which are skipped. -/
def loadRegistry (dir : Option (List (Option Raw))) : Registry :=
  match dir with
  | none => { identities := [], indexes := none }
  | some files =>
    let identities := files.filterMap (fun f => f.map normalizeIdentity)
    { identities := identities, indexes := some (buildIndexes identities) }

/-- Summarized projection used by List and Search (lines 295-306). -/
structure Summary where
  name : Option String
  gpgFingerprint : Option String
  description : Option String
  platforms : List (String × String)
  proofOfExistence : Option (Option String × Option String)
deriving DecidableEq

def summarize (i : Identity) : Summary :=
  { name := i.name
    gpgFingerprint := i.gpgFingerprint
    description := i.description
    platforms := i.platforms
    proofOfExistence := i.proofOfExistence.map (fun p => (p.txid, p.network)) }

/-- Outcome of a point lookup: `ok` is HTTP 200 with the full identity,
`notFound` is the 404 carrying back the searched key, and `jsError` is a
thrown `TypeError` (HTTP 500 via the framework). -/
inductive Lookup where
  | ok (i : Identity)
  | notFound (key : String)
  | jsError
deriving DecidableEq

/-- Outcome of the platform-handle lookup, which distinguishes an unknown
platform (carrying the known platform keys) from an unknown handle. -/
inductive PlatLookup where
  | ok (i : Identity)
  | platformUnknown (platform : String) (available : List String)
  | notFound (platform handle : String)
  | jsError
deriving DecidableEq

/-- Handler `GET /v1/identities/:fingerprint` (lines 170-179). -/
def getByFingerprint (reg : Registry) (fpParam : String) : Lookup :=
  match reg.indexes with
  | none => Lookup.jsError
  | some idx =>
    match jsGet idx.byFingerprint (jsToLower fpParam) with
    | some i => Lookup.ok i
    | none => Lookup.notFound fpParam

/-- Handler `GET /v1/lookup/name/:name` (lines 182-191). -/
def getByName (reg : Registry) (nameParam : String) : Lookup :=
  match reg.indexes with
  | none => Lookup.jsError
  | some idx =>
    match jsGet idx.byName (jsToLower nameParam) with
    | some i => Lookup.ok i
    | none => Lookup.notFound nameParam

/-- Handler `GET /v1/lookup/platform/:platform/:handle` (lines 194-213). -/
def getByPlatform (reg : Registry) (platform handle : String) : PlatLookup :=
  match reg.indexes with
  | none => PlatLookup.jsError
  | some idx =>
    match jsGet idx.byPlatform (jsToLower platform) with
    | none => PlatLookup.platformUnknown platform (idx.byPlatform.map Prod.fst)
    | some sub =>
      match jsGet sub (jsToLower handle) with
      | some i => PlatLookup.ok i
      | none => PlatLookup.notFound platform handle

/-- Handler `GET /v1/lookup/wallet/:address` (lines 216-225). -/
def getByWallet (reg : Registry) (addrParam : String) : Lookup :=
  match reg.indexes with
  | none => Lookup.jsError
  | some idx =>
    match jsGet idx.byWallet (jsToLower addrParam) with
    | some i => Lookup.ok i
    | none => Lookup.notFound addrParam

/-- Effective limit of the List handler:
`Math.min(parseInt(limit) || 100, 1000)`. -/
def listLimit (p : Option String) : Int :=
  min (jsFalsyOr (jsParamInt p 100) 100) 1000

/-- Effective offset of the List handler: `parseInt(offset) || 0`
(note: no lower clamp). -/
def listOffset (p : Option String) : Int :=
  jsFalsyOr (jsParamInt p 0) 0

/-- Response body of `GET /v1/identities`. -/
structure ListResp where
  total : Nat
  limit : Int
  offset : Int
  identities : List Summary
deriving DecidableEq

/-- Handler `GET /v1/identities` (lines 154-167). -/
def listIdentities (reg : Registry) (limitP offsetP : Option String) : ListResp :=
  { total := reg.identities.length
    limit := listLimit limitP
    offset := listOffset offsetP
    identities :=
      (jsSlice reg.identities (listOffset offsetP) (listOffset offsetP + listLimit limitP)).map
        summarize }

/-- Substring test of one possibly-absent field:
`field?.toLowerCase().includes(query)`. -/
def optIncl (o : Option String) (query : String) : Bool :=
  match o with
  | some s => strIncludes (jsToLower s) query
  | none => false

/-- Match predicate of the Search handler (lines 238-256): name,
description, any platform handle value, or fingerprint. -/
def searchMatch (query : String) (i : Identity) : Bool :=
  optIncl i.name query || optIncl i.description query ||
    i.platforms.any (fun p => strIncludes (jsToLower p.2) query) ||
    optIncl i.gpgFingerprint query

/-- Effective limit of the Search handler:
`Math.min(parseInt(limit) || 20, 100)`. -/
def searchLimit (p : Option String) : Int :=
  min (jsFalsyOr (jsParamInt p 20) 20) 100

/-- Success body of `GET /v1/search`. -/
structure SearchOk where
  query : String
  count : Nat
  results : List Summary
deriving DecidableEq

/-- Outcome of `GET /v1/search`: `invalidQuery` is the 400
`Query must be at least 2 characters`. -/
inductive SearchResult where
  | invalidQuery
  | ok (r : SearchOk)
deriving DecidableEq

/-- Handler `GET /v1/search` (lines 228-263).  The guard `!q || q.length < 2`
collapses to a length test: an absent `q` is rejected, and the falsy `""`
also has length `< 2`. -/
def searchIdentities (reg : Registry) (qP limitP : Option String) : SearchResult :=
  match qP with
  | none => SearchResult.invalidQuery
  | some q =>
    if q.length < 2 then SearchResult.invalidQuery
    else
      SearchResult.ok
        { query := q
          count := ((jsSlice (reg.identities.filter (searchMatch (jsToLower q))) 0
              (searchLimit limitP)).map summarize).length
          results := (jsSlice (reg.identities.filter (searchMatch (jsToLower q))) 0
              (searchLimit limitP)).map summarize }

/-- Increment of a counter object entry:
`counts[k] = (counts[k] || 0) + 1`.  The JS object of counts is modelled by
its lookup function, reading absent keys as `0`. -/
def bump (f : String → Nat) (k : String) : String → Nat :=
  fun c => if c = k then f c + 1 else f c

/-- Truthiness of `identity.wallets[chain]`: the read can give `undefined`
(absent key), an `undefined` value stored under the key, or a string; only
a nonempty string is truthy. -/
def wTruthy : Option (Option String) → Bool
  | some (some s) => s != ""
  | _ => false

/-- Platform section of the stats loop (lines 271-275): one bump per key of
`identity.platforms`. -/
def statsPlatformsStep (acc : String → Nat) (i : Identity) : String → Nat :=
  (i.platforms.map Prod.fst).foldl bump acc

/-- Chain section of the stats loop (lines 276-282): one bump per key of
`identity.wallets` whose looked-up address is truthy. -/
def statsChainsStep (acc : String → Nat) (i : Identity) : String → Nat :=
  (i.wallets.map Prod.fst).foldl
    (fun a c => if wTruthy (jsGet i.wallets c) then bump a c else a) acc

/-- Response of `GET /v1/stats` (lines 266-291), with the two counter
objects modelled as lookup functions. -/
structure StatsResp where
  totalIdentities : Nat
  platforms : String → Nat
  chains : String → Nat

/-- Handler `GET /v1/stats`. -/
def statsOf (reg : Registry) : StatsResp :=
  { totalIdentities := reg.identities.length
    platforms := reg.identities.foldl statsPlatformsStep (fun _ => 0)
    chains := reg.identities.foldl statsChainsStep (fun _ => 0) }

/-- Decimal digit characters of `n`, most significant first. -/
def decDigits (n : Nat) : List Char :=
  if n < 10 then [Char.ofNat (48 + n)]
  else decDigits (n / 10) ++ [Char.ofNat (48 + n % 10)]
decreasing_by exact Nat.div_lt_self (by omega) (by omega)

/-- Decimal string of `n`, used as a witness offset parameter. -/
def decString (n : Nat) : String := ⟨decDigits n⟩

/-- The index keys written for an identity by `fpStep`. -/
def fpKeys (i : Identity) : List String :=
  match i.gpgFingerprint with
  | some f =>
    if f == "" then []
    else [jsToLower f, strSliceNeg (jsToLower f) 16, strSliceNeg (jsToLower f) 8]
  | none => []

/-- Containment of every identity stored in the four indexes in a given
identity list (the invariant of claim C10). -/
def idxValsOK (S : List Identity) (idx : Indexes) : Prop :=
  (∀ kv ∈ idx.byFingerprint, kv.2 ∈ S) ∧
  (∀ kv ∈ idx.byName, kv.2 ∈ S) ∧
  (∀ ps ∈ idx.byPlatform, ∀ hv ∈ ps.2, hv.2 ∈ S) ∧
  (∀ kv ∈ idx.byWallet, kv.2 ∈ S)

/-- Raw document with every field absent; concrete documents below override
single fields. -/
def rawNone : Raw :=
  { atp := none, type := none, name := none, description := none, gpg := none
    gpgFingerprint := none, gpgKeyserver := none, platforms := none, wallet := none
    wallets := none, walletProof := none, binding_proofs := none, bindingProofs := none
    proofOfExistence := none, proof_of_existence := none, created := none, signature := none }

/-- Document with a 24-character fingerprint, for the C2 witness. -/
def rawW2 : Raw := { rawNone with gpgFingerprint := some "0123456789ABCDEFDEADBEEF" }

/-- Documents whose fingerprints share the last 8 characters while the
second document's last-16 key equals the first document's full lowercased
fingerprint, for the C3 counterexample. -/
def rawC3a : Raw := { rawNone with gpgFingerprint := some "0123456789ABCDEF" }

def rawC3b : Raw := { rawNone with gpgFingerprint := some "FF0123456789ABCDEF" }

/-- Documents whose fingerprints share the last 8 characters without any
further key collision, for the C3 amended-claim witness. -/
def rawW3a : Raw := { rawNone with gpgFingerprint := some "AAAAAAAA89ABCDEF" }

def rawW3b : Raw := { rawNone with gpgFingerprint := some "BBBBBBBBBBBBBBBB89ABCDEF" }

/-- Document with a nested wallet object that has no address, together with
a flat wallets map, for the C4 counterexample. -/
def rawC4 : Raw := { rawNone with wallet := some ⟨none, none⟩, wallets := some [("eth", "0x1")] }

/-- Document matching the spec test `normalize {wallet:{address:"1A2B"}}`. -/
def rawW4 : Raw := { rawNone with wallet := some ⟨some "1A2B", none⟩ }

def rawNamed (n : String) : Raw := { rawNone with name := some n }

/-- Registry of two identities, for the C5 counterexample. -/
def regC5 : Registry := loadRegistry (some [some (rawNamed "a"), some (rawNamed "b")])

/-- Registry of three identities, matching the spec List test. -/
def regW5 : Registry :=
  loadRegistry (some [some (rawNamed "a"), some (rawNamed "b"), some (rawNamed "c")])

/-- Registry matching the spec search test: one identity named
`Shrike_Bot`, one with a twitter handle `Shrike_Bot`, one unrelated. -/
def regW6 : Registry :=
  loadRegistry (some
    [some (rawNamed "Shrike_Bot"),
     some { rawNone with platforms := some [("twitter", "Shrike_Bot")] },
     some { rawNone with name := some "Other", description := some "nothing here" }])

/-- Registry matching the spec stats test: identity A with an empty btc
address, identity B with a nonempty one. -/
def regW8 : Registry :=
  loadRegistry (some
    [some { rawNone with wallets := some [("btc", "")] },
     some { rawNone with wallets := some [("btc", "1xyz")] }])

def filesW10 : List (Option Raw) := [some { rawNone with gpgFingerprint := some "ABCD1234ABCD1234" }]

theorem jsGet_jsSet {α : Type} (m : List (String × α)) (k k' : String) (v : α) :
    jsGet (jsSet m k v) k' = if k' = k then some v else jsGet m k' := by
  induction m with
  | nil =>
    simp only [jsSet, jsGet]
    by_cases h : k' = k
    · simp [h]
    · simp [h, Ne.symm h]
  | cons ab t ih =>
    obtain ⟨a, b⟩ := ab
    simp only [jsSet]
    by_cases hak : a = k
    · subst hak
      simp only [if_pos rfl, jsGet]
      by_cases h : a = k'
      · subst h; simp
      · simp [h, Ne.symm h]
    · simp only [if_neg hak, jsGet, ih]
      by_cases h : a = k'
      · subst h
        simp [hak]
      · simp [h]

theorem jsGet_mem {α : Type} {m : List (String × α)} {k : String} {v : α}
    (h : jsGet m k = some v) : (k, v) ∈ m := by
  induction m with
  | nil => simp [jsGet] at h
  | cons ab t ih =>
    obtain ⟨a, b⟩ := ab
    simp only [jsGet] at h
    by_cases hak : a = k
    · subst hak
      rw [if_pos rfl] at h
      injection h with h
      subst h
      exact List.mem_cons_self _ _
    · rw [if_neg hak] at h
      exact List.mem_cons_of_mem _ (ih h)

theorem jsGet_eq_none {α : Type} {m : List (String × α)} {k : String}
    (h : k ∉ m.map Prod.fst) : jsGet m k = none := by
  induction m with
  | nil => rfl
  | cons ab t ih =>
    obtain ⟨a, b⟩ := ab
    simp only [List.map_cons, List.mem_cons, not_or] at h
    simp only [jsGet, if_neg (fun hh : a = k => h.1 hh.symm)]
    exact ih h.2

theorem jsSet_mem {α : Type} {m : List (String × α)} {k : String} {v : α} {kv : String × α}
    (h : kv ∈ jsSet m k v) : kv ∈ m ∨ kv.2 = v := by
  induction m with
  | nil =>
    simp only [jsSet, List.mem_singleton] at h
    right; rw [h]
  | cons ab t ih =>
    obtain ⟨a, b⟩ := ab
    simp only [jsSet] at h
    by_cases hak : a = k
    · rw [if_pos hak] at h
      rcases List.mem_cons.mp h with h | h
      · right; rw [h]
      · left; exact List.mem_cons_of_mem _ h
    · rw [if_neg hak] at h
      rcases List.mem_cons.mp h with h | h
      · left; rw [h]; exact List.mem_cons_self _ _
      · rcases ih h with h | h
        · left; exact List.mem_cons_of_mem _ h
        · right; exact h

theorem jsToLower_length (s : String) : (jsToLower s).length = s.length := by
  cases s with
  | mk data => simp [jsToLower, String.length]

theorem strSliceNeg_length (s : String) (n : Nat) :
    (strSliceNeg s n).length = min n s.length := by
  cases s with
  | mk data =>
    simp only [strSliceNeg, String.length, List.length_drop]
    omega

theorem strSliceNeg_of_le {s : String} {n : Nat} (h : s.length ≤ n) : strSliceNeg s n = s := by
  cases s with
  | mk data =>
    simp only [String.length] at h
    simp [strSliceNeg, Nat.sub_eq_zero_of_le h]

theorem listIsPref_iff (n : List Char) : ∀ h : List Char,
    listIsPref n h = true ↔ ∃ r, h = n ++ r := by
  induction n with
  | nil => intro h; simp [listIsPref]
  | cons a as ih =>
    intro h
    cases h with
    | nil => simp [listIsPref]
    | cons b bs =>
      simp only [listIsPref, Bool.and_eq_true, decide_eq_true_eq, ih]
      constructor
      · rintro ⟨hab, r, hr⟩
        exact ⟨r, by rw [hab, hr]; rfl⟩
      · rintro ⟨r, hr⟩
        rw [List.cons_append] at hr
        obtain ⟨h1, h2⟩ := List.cons.inj hr
        exact ⟨h1.symm, r, h2⟩

theorem occurs_iff (n : List Char) : ∀ h : List Char,
    occurs n h = true ↔ ∃ l r, h = l ++ n ++ r := by
  intro h
  induction h with
  | nil =>
    simp only [occurs, listIsPref_iff]
    constructor
    · rintro ⟨r, hr⟩; exact ⟨[], r, by simpa using hr⟩
    · rintro ⟨l, r, hlr⟩
      have h0 := List.append_eq_nil.mp hlr.symm
      have h1 := List.append_eq_nil.mp h0.1
      exact ⟨r, by simp [h1.2, h0.2]⟩
  | cons c t ih =>
    simp only [occurs, Bool.or_eq_true, listIsPref_iff, ih]
    constructor
    · rintro (⟨r, hr⟩ | ⟨l, r, hlr⟩)
      · exact ⟨[], r, by simpa using hr⟩
      · exact ⟨c :: l, r, by simp [hlr]⟩
    · rintro ⟨l, r, hlr⟩
      cases l with
      | nil => left; exact ⟨r, by simpa using hlr⟩
      | cons x xs =>
        right
        rw [List.cons_append, List.cons_append] at hlr
        obtain ⟨h1, h2⟩ := List.cons.inj hlr
        exact ⟨xs, r, by simpa using h2⟩

theorem strIncludes_iff (s sub : String) :
    strIncludes s sub = true ↔ ∃ l r, s.data = l ++ sub.data ++ r :=
  occurs_iff sub.data s.data

theorem fpStep_byFingerprint (idx : Indexes) (i : Identity) :
    (indexIdentity idx i).byFingerprint = fpStep idx.byFingerprint i := rfl

theorem fpStep_get_self (m : List (String × Identity)) (i : Identity) (k : String)
    (hk : k ∈ fpKeys i) : jsGet (fpStep m i) k = some i := by
  cases hfp : i.gpgFingerprint with
  | none => simp [fpKeys, hfp] at hk
  | some f =>
    by_cases hf : f = ""
    · simp [fpKeys, hfp, hf] at hk
    · have hf2 : (f == "") = false := by simp [hf]
      simp only [fpKeys, hfp, hf2, Bool.false_eq_true, if_false, List.mem_cons,
        List.not_mem_nil, or_false] at hk
      simp only [fpStep, hfp, hf2, Bool.false_eq_true, if_false]
      rcases hk with hk | hk | hk <;>
        (rw [jsGet_jsSet, jsGet_jsSet, jsGet_jsSet]; split_ifs <;> simp_all)

theorem fpStep_get_other (m : List (String × Identity)) (i : Identity) (k : String)
    (hk : k ∉ fpKeys i) : jsGet (fpStep m i) k = jsGet m k := by
  cases hfp : i.gpgFingerprint with
  | none => simp [fpStep, hfp]
  | some f =>
    by_cases hf : f = ""
    · have hf2 : (f == "") = true := by simp [hf]
      simp [fpStep, hfp, hf2]
    · have hf2 : (f == "") = false := by simp [hf]
      simp only [fpKeys, hfp, hf2, Bool.false_eq_true, if_false, List.mem_cons,
        List.not_mem_nil, or_false, not_or] at hk
      simp only [fpStep, hfp, hf2, Bool.false_eq_true, if_false]
      rw [jsGet_jsSet, jsGet_jsSet, jsGet_jsSet,
        if_neg hk.2.2, if_neg hk.2.1, if_neg hk.1]

theorem foldl_fpGet_stable (ids : List Identity) (acc : Indexes) (k : String) (i : Identity)
    (h0 : jsGet acc.byFingerprint k = some i)
    (hW : ∀ j ∈ ids, k ∈ fpKeys j → j = i) :
    jsGet (ids.foldl indexIdentity acc).byFingerprint k = some i := by
  induction ids generalizing acc with
  | nil => simpa using h0
  | cons j t ih =>
    simp only [List.foldl_cons]
    apply ih
    · by_cases hj : k ∈ fpKeys j
      · have hji := hW j (List.mem_cons_self _ _) hj
        rw [fpStep_byFingerprint, fpStep_get_self _ _ _ hj, hji]
      · rw [fpStep_byFingerprint, fpStep_get_other _ _ _ hj]
        exact h0
    · intro j' hj' hkj'
      exact hW j' (List.mem_cons_of_mem _ hj') hkj'

theorem suffix_collision {fl gl : String} (hlen : 16 ≤ fl.length) (k : String)
    (hkf : k = fl ∨ k = strSliceNeg fl 16 ∨ k = strSliceNeg fl 8)
    (hkg : k = gl ∨ k = strSliceNeg gl 16 ∨ k = strSliceNeg gl 8) :
    strSliceNeg gl 16 = strSliceNeg fl 16 ∨ strSliceNeg gl 8 = strSliceNeg fl 8 := by
  have lf16 : (strSliceNeg fl 16).length = 16 := by rw [strSliceNeg_length]; omega
  have lf8 : (strSliceNeg fl 8).length = 8 := by rw [strSliceNeg_length]; omega
  rcases hkf with hkf | hkf | hkf <;> rcases hkg with hkg | hkg | hkg
  · left
    rw [hkf.symm.trans hkg]
  · -- fl = strSliceNeg gl 16, so fl has length 16 and is its own 16-suffix
    have he : fl = strSliceNeg gl 16 := hkf.symm.trans hkg
    have hl : fl.length = min 16 gl.length := by rw [he, strSliceNeg_length]
    have hfl16 : fl.length = 16 := by omega
    left
    rw [strSliceNeg_of_le (le_of_eq hfl16), ← he]
  · -- fl = strSliceNeg gl 8 is impossible: the right side has length at most 8
    have he : fl = strSliceNeg gl 8 := hkf.symm.trans hkg
    have hl : fl.length = min 8 gl.length := by rw [he, strSliceNeg_length]
    omega
  · -- gl = strSliceNeg fl 16, so gl has length 16 and is its own 16-suffix
    have he : gl = strSliceNeg fl 16 := hkg.symm.trans hkf
    have hl : gl.length = 16 := by rw [he, lf16]
    left
    rw [strSliceNeg_of_le (le_of_eq hl), he]
  · left
    rw [hkg.symm.trans hkf]
  · -- strSliceNeg gl 8 = strSliceNeg fl 16 is impossible: lengths 8 vs 16
    have he : strSliceNeg gl 8 = strSliceNeg fl 16 := hkg.symm.trans hkf
    have hl : (strSliceNeg gl 8).length = min 8 gl.length := strSliceNeg_length gl 8
    rw [he, lf16] at hl
    omega
  · -- gl = strSliceNeg fl 8, so gl has length 8 and is its own 8-suffix
    have he : gl = strSliceNeg fl 8 := hkg.symm.trans hkf
    have hl : gl.length = 8 := by rw [he, lf8]
    right
    rw [strSliceNeg_of_le (le_of_eq hl), he]
  · -- strSliceNeg gl 16 = strSliceNeg fl 8 forces gl to have length 8
    have he : strSliceNeg gl 16 = strSliceNeg fl 8 := hkg.symm.trans hkf
    have hl : min 16 gl.length = 8 := by
      have := strSliceNeg_length gl 16
      rw [he, lf8] at this
      omega
    have hgl : gl.length = 8 := by omega
    right
    rw [strSliceNeg_of_le (by omega : gl.length ≤ 8),
      ← strSliceNeg_of_le (by omega : gl.length ≤ 16), he]
  · right
    rw [hkg.symm.trans hkf]

theorem fpStep_unfold (m : List (String × Identity)) (i : Identity) (f : String)
    (hf : i.gpgFingerprint = some f) (hne : f ≠ "") :
    fpStep m i = jsSet (jsSet (jsSet m (jsToLower f) i) (strSliceNeg (jsToLower f) 16) i)
      (strSliceNeg (jsToLower f) 8) i := by
  have hf2 : (f == "") = false := by simp [hne]
  simp [fpStep, hf, hf2]

theorem getByFingerprint_eq_ok {reg : Registry} {idx : Indexes} {k : String} {i : Identity}
    (hidx : reg.indexes = some idx)
    (hget : jsGet idx.byFingerprint (jsToLower k) = some i) :
    getByFingerprint reg k = Lookup.ok i := by
  simp [getByFingerprint, hidx, hget]

theorem buildIndexes_fpGet (ids : List Identity) (i : Identity) (key : String)
    (hmem : i ∈ ids) (hkey : key ∈ fpKeys i)
    (hW : ∀ j ∈ ids, key ∈ fpKeys j → j = i) :
    jsGet (buildIndexes ids).byFingerprint key = some i := by
  obtain ⟨l1, l2, rfl⟩ := List.append_of_mem hmem
  unfold buildIndexes
  rw [List.foldl_append, List.foldl_cons]
  apply foldl_fpGet_stable
  · rw [fpStep_byFingerprint]
    exact fpStep_get_self _ _ _ hkey
  · intro j hj hkj
    exact hW j (List.mem_append_right _ (List.mem_cons_of_mem _ hj)) hkj

/-- C2: for every identity of a built snapshot whose fingerprint `F` has
length at least 16, looking up `F`, its last 16 characters or its last 8
characters, in any letter case, returns that identity, provided no other
identity of the snapshot has a fingerprint sharing the relevant lowercased
16- or 8-character suffix. -/
theorem c2_fingerprint_short_forms (files : List (Option Raw)) (i : Identity) (F : String)
    (hmem : i ∈ (loadRegistry (some files)).identities)
    (hfp : i.gpgFingerprint = some F)
    (hlen : 16 ≤ F.length)
    (huniq : ∀ j ∈ (loadRegistry (some files)).identities, ∀ G, j.gpgFingerprint = some G →
      (strSliceNeg (jsToLower G) 16 = strSliceNeg (jsToLower F) 16 ∨
        strSliceNeg (jsToLower G) 8 = strSliceNeg (jsToLower F) 8) → j = i)
    (k : String)
    (hk : jsToLower k = jsToLower F ∨ jsToLower k = strSliceNeg (jsToLower F) 16 ∨
      jsToLower k = strSliceNeg (jsToLower F) 8) :
    getByFingerprint (loadRegistry (some files)) k = Lookup.ok i := by
  have hFne : F ≠ "" := by
    intro h
    rw [h] at hlen
    exact absurd hlen (by decide)
  have hf2 : (F == "") = false := by simp [hFne]
  have hkeys : jsToLower k ∈ fpKeys i := by
    simp only [fpKeys, hfp, hf2, Bool.false_eq_true, if_false, List.mem_cons,
      List.not_mem_nil, or_false]
    exact hk
  apply @getByFingerprint_eq_ok _ (buildIndexes (loadRegistry (some files)).identities) _ _ rfl
  apply buildIndexes_fpGet _ _ _ hmem hkeys
  intro j hj hkj
  cases hjfp : j.gpgFingerprint with
  | none => rw [fpKeys, hjfp] at hkj; simp at hkj
  | some G =>
    by_cases hG : G = ""
    · rw [fpKeys, hjfp] at hkj
      simp [hG] at hkj
    · have hg2 : (G == "") = false := by simp [hG]
      rw [fpKeys, hjfp] at hkj
      simp only [hg2, Bool.false_eq_true, if_false, List.mem_cons,
        List.not_mem_nil, or_false] at hkj
      have hlenl : 16 ≤ (jsToLower F).length := by rw [jsToLower_length]; exact hlen
      exact huniq j hj G hjfp (suffix_collision hlenl (jsToLower k) hk hkj)

theorem c2_witness :
    getByFingerprint (loadRegistry (some [some rawW2])) "DEADBEEF"
      = Lookup.ok (normalizeIdentity rawW2) :=
  c2_fingerprint_short_forms [some rawW2] (normalizeIdentity rawW2) "0123456789ABCDEFDEADBEEF"
    (by decide) (by decide) (by decide)
    (fun j hj G hG hcol => List.eq_of_mem_singleton hj)
    "DEADBEEF" (by decide)

/-- C3 counterexample: the two concrete fingerprints share their last 8
characters, yet after the build the first identity is no longer reachable
via its own full lowercased fingerprint: the second identity's last-16 key
coincides with it and overwrites it. -/
theorem c3_counterexample :
    strSliceNeg (jsToLower "0123456789ABCDEF") 8
        = strSliceNeg (jsToLower "FF0123456789ABCDEF") 8 ∧
    getByFingerprint (loadRegistry (some [some rawC3a, some rawC3b])) "0123456789ABCDEF"
        = Lookup.ok (normalizeIdentity rawC3b) ∧
    normalizeIdentity rawC3b ≠ normalizeIdentity rawC3a := by decide

/-- C3 amended: with identities A then B sharing the last 8 lowercased
fingerprint characters, the 8-character short form resolves to B (last
writer wins) and B is reachable via its full fingerprint; A remains
reachable via its own full lowercased fingerprint provided that key is
distinct from every index key written for B (B's full fingerprint and its
two short forms). -/
theorem c3_amended (rA rB : Raw) (fA fB : String)
    (hA : (normalizeIdentity rA).gpgFingerprint = some fA)
    (hB : (normalizeIdentity rB).gpgFingerprint = some fB)
    (hAne : fA ≠ "") (hBne : fB ≠ "")
    (h8 : strSliceNeg (jsToLower fA) 8 = strSliceNeg (jsToLower fB) 8) :
    (∀ k, jsToLower k = strSliceNeg (jsToLower fA) 8 →
      getByFingerprint (loadRegistry (some [some rA, some rB])) k
        = Lookup.ok (normalizeIdentity rB)) ∧
    (∀ k, jsToLower k = jsToLower fB →
      getByFingerprint (loadRegistry (some [some rA, some rB])) k
        = Lookup.ok (normalizeIdentity rB)) ∧
    (jsToLower fA ≠ jsToLower fB →
      jsToLower fA ≠ strSliceNeg (jsToLower fB) 16 →
      jsToLower fA ≠ strSliceNeg (jsToLower fB) 8 →
      ∀ k, jsToLower k = jsToLower fA →
        getByFingerprint (loadRegistry (some [some rA, some rB])) k
          = Lookup.ok (normalizeIdentity rA)) := by
  have hfp : (buildIndexes [normalizeIdentity rA, normalizeIdentity rB]).byFingerprint
      = fpStep (fpStep [] (normalizeIdentity rA)) (normalizeIdentity rB) := rfl
  refine ⟨?_, ?_, ?_⟩
  · intro k hk
    apply @getByFingerprint_eq_ok _ (buildIndexes [normalizeIdentity rA, normalizeIdentity rB]) _ _ rfl
    rw [hfp, fpStep_unfold _ _ _ hB hBne, jsGet_jsSet, if_pos (hk.trans h8)]
  · intro k hk
    apply @getByFingerprint_eq_ok _ (buildIndexes [normalizeIdentity rA, normalizeIdentity rB]) _ _ rfl
    rw [hfp, fpStep_unfold _ _ _ hB hBne, jsGet_jsSet, jsGet_jsSet, jsGet_jsSet]
    split_ifs <;> simp_all
  · intro h1 h2 h3 k hk
    apply @getByFingerprint_eq_ok _ (buildIndexes [normalizeIdentity rA, normalizeIdentity rB]) _ _ rfl
    rw [hfp, fpStep_unfold _ _ _ hB hBne, jsGet_jsSet, jsGet_jsSet, jsGet_jsSet,
      if_neg (hk ▸ h3), if_neg (hk ▸ h2), if_neg (hk ▸ h1),
      fpStep_unfold _ _ _ hA hAne, jsGet_jsSet, jsGet_jsSet, jsGet_jsSet]
    split_ifs <;> simp_all

theorem c3_witness :
    getByFingerprint (loadRegistry (some [some rawW3a, some rawW3b])) "89ABCDEF"
        = Lookup.ok (normalizeIdentity rawW3b) ∧
    getByFingerprint (loadRegistry (some [some rawW3a, some rawW3b])) "AAAAAAAA89ABCDEF"
        = Lookup.ok (normalizeIdentity rawW3a) :=
  ⟨(c3_amended rawW3a rawW3b "AAAAAAAA89ABCDEF" "BBBBBBBBBBBBBBBB89ABCDEF"
      (by decide) (by decide) (by decide) (by decide) (by decide)).1
      "89ABCDEF" (by decide),
   (c3_amended rawW3a rawW3b "AAAAAAAA89ABCDEF" "BBBBBBBBBBBBBBBB89ABCDEF"
      (by decide) (by decide) (by decide) (by decide) (by decide)).2.2
      (by decide) (by decide) (by decide) "AAAAAAAA89ABCDEF" (by decide)⟩

theorem jsSlice_nonneg {α : Type} (l : List α) (o lim : Int) (ho : 0 ≤ o) (hl : 0 ≤ lim) :
    jsSlice l o (o + lim) = (l.drop o.toNat).take lim.toNat := by
  unfold jsSlice jsSliceIdx
  rw [if_neg (by omega), if_neg (by omega), Int.toNat_add ho hl]
  by_cases hn : o.toNat < l.length
  · rw [min_eq_left (by omega : o.toNat ≤ l.length), List.drop_take]
    refine List.take_eq_take.mpr ?_
    rw [List.length_drop]
    omega
  · rw [min_eq_right (by omega : l.length ≤ o.toNat),
      List.drop_eq_nil_of_le (by rw [List.length_take]; exact min_le_right _ _),
      List.drop_eq_nil_of_le (by omega : l.length ≤ o.toNat)]
    simp

theorem jsSlice_oor {α : Type} (l : List α) (o e : Int) (ho : (l.length : Int) ≤ o) :
    jsSlice l o e = [] := by
  unfold jsSlice jsSliceIdx
  rw [if_neg (by omega), min_eq_right (by omega : l.length ≤ o.toNat)]
  apply List.drop_eq_nil_of_le
  rw [List.length_take]
  exact min_le_right _ _

/-- C1: with the registry directory missing, the snapshot has zero
identities and List and Search still answer (empty page with total 0,
empty result set) — but all four point lookups throw a `TypeError`
instead of returning NotFound/PlatformUnknown, because the empty branch of
`loadRegistry` returns `indexes: {}` without the four index maps. -/
theorem c1_missing_registry_degrades :
    (loadRegistry none).identities = [] ∧
    getByFingerprint (loadRegistry none) "ABCD1234" = Lookup.jsError ∧
    getByName (loadRegistry none) "alice" = Lookup.jsError ∧
    getByPlatform (loadRegistry none) "twitter" "alice" = PlatLookup.jsError ∧
    getByWallet (loadRegistry none) "1abc" = Lookup.jsError ∧
    listIdentities (loadRegistry none) none none
        = { total := 0, limit := 100, offset := 0, identities := [] } ∧
    searchIdentities (loadRegistry none) (some "ab") none
        = SearchResult.ok { query := "ab", count := 0, results := [] } := by decide

/-- C4 counterexample: a raw document whose nested `wallet` object has no
`address` but which also carries a flat `wallets` map.  The claim's
resolution order would keep the flat map; `normalizeIdentity` instead
tests `raw.wallet` for truthiness and synthesizes `{ btc: undefined }`. -/
theorem c4_counterexample :
    rawC4.wallet = some { address := none, proof := none } ∧
    rawC4.wallets = some [("eth", "0x1")] ∧
    (normalizeIdentity rawC4).wallets = [("btc", none)] ∧
    (normalizeIdentity rawC4).wallets ≠ [("eth", some "0x1")] := by decide

/-- C4 amended: `normalize` resolves `wallets` by testing whether the
nested `wallet` object itself is present: if so it synthesizes
`{btc: wallet.address}` (binding `btc` to `undefined` when the address is
absent); otherwise a present flat `wallets` map is used unchanged;
otherwise the result is the empty map. -/
theorem c4_amended (raw : Raw) :
    (∀ w, raw.wallet = some w → (normalizeIdentity raw).wallets = [("btc", w.address)]) ∧
    (raw.wallet = none → ∀ m, raw.wallets = some m →
      (normalizeIdentity raw).wallets = m.map (fun p => (p.1, some p.2))) ∧
    (raw.wallet = none → raw.wallets = none → (normalizeIdentity raw).wallets = []) := by
  refine ⟨?_, ?_, ?_⟩
  · intro w hw
    simp [normalizeIdentity, hw]
  · intro hw m hm
    simp [normalizeIdentity, hw, hm]
  · intro hw hm
    simp [normalizeIdentity, hw, hm]

theorem c4_witness : (normalizeIdentity rawW4).wallets = [("btc", some "1A2B")] :=
  (c4_amended rawW4).1 { address := some "1A2B", proof := none } rfl

/-- C5 counterexample: on a two-identity registry, `offset=-1` is not
clamped to 0 — the parsed negative offset reaches `Array.prototype.slice`,
which counts from the end, so the page is the last identity alone rather
than the full clamped page the claim demands. -/
theorem c5_counterexample :
    regC5.identities.length = 2 ∧
    (listIdentities regC5 none (some "-1")).offset = -1 ∧
    (listIdentities regC5 none (some "-1")).identities
        = [summarize (normalizeIdentity (rawNamed "b"))] ∧
    (listIdentities regC5 none (some "-1")).identities
        ≠ regC5.identities.map summarize := by decide

/-- C5 amended: List clamps limit to at most 1000 with default 100 when
absent or invalid; offset defaults to 0 when absent or invalid but is NOT
clamped below — a parsed nonzero offset (even negative) is passed through
to the JS slice.  For nonnegative offsets the page is the summarized
`identities[offset : offset+limit]`, an out-of-range offset yields an
empty page rather than an error, and `total` is always the unclamped
identity count. -/
theorem c5_amended (reg : Registry) (limitP offsetP : Option String) :
    (listIdentities reg limitP offsetP).total = reg.identities.length ∧
    listLimit limitP ≤ 1000 ∧
    (limitP = none → listLimit limitP = 100) ∧
    (∀ s, limitP = some s → jsParseInt s = none → listLimit limitP = 100) ∧
    (∀ s n, limitP = some s → jsParseInt s = some n → n ≠ 0 → listLimit limitP = min n 1000) ∧
    (offsetP = none → listOffset offsetP = 0) ∧
    (∀ s, offsetP = some s → jsParseInt s = none → listOffset offsetP = 0) ∧
    (∀ s n, offsetP = some s → jsParseInt s = some n → n ≠ 0 → listOffset offsetP = n) ∧
    (0 ≤ listOffset offsetP → 0 ≤ listLimit limitP →
      (listIdentities reg limitP offsetP).identities
        = ((reg.identities.drop (listOffset offsetP).toNat).take
            (listLimit limitP).toNat).map summarize) ∧
    ((reg.identities.length : Int) ≤ listOffset offsetP →
      (listIdentities reg limitP offsetP).identities = []) := by
  refine ⟨rfl, min_le_right _ _, ?_, ?_, ?_, ?_, ?_, ?_, ?_, ?_⟩
  · intro h; rw [h]; rfl
  · intro s hs hp
    rw [hs]
    simp [listLimit, jsParamInt, hp, jsFalsyOr]
  · intro s n hs hp hn
    rw [hs]
    simp [listLimit, jsParamInt, hp, jsFalsyOr, hn]
  · intro h; rw [h]; rfl
  · intro s hs hp
    rw [hs]
    simp [listOffset, jsParamInt, hp, jsFalsyOr]
  · intro s n hs hp hn
    rw [hs]
    simp [listOffset, jsParamInt, hp, jsFalsyOr, hn]
  · intro ho hl
    show (jsSlice reg.identities _ _).map summarize = _
    rw [jsSlice_nonneg _ _ _ ho hl]
  · intro ho
    show (jsSlice reg.identities _ _).map summarize = _
    rw [jsSlice_oor _ _ _ ho]
    rfl

theorem c5_witness :
    (listIdentities regW5 (some "5") none).total = 3 ∧
    (listIdentities regW5 (some "5") none).identities = regW5.identities.map summarize ∧
    (listIdentities regW5 (some "5") (some "10")).identities = [] := by
  obtain ⟨ht, _, _, _, _, _, _, _, hpage, _⟩ := c5_amended regW5 (some "5") none
  obtain ⟨_, _, _, _, _, _, _, _, _, hoor⟩ := c5_amended regW5 (some "5") (some "10")
  refine ⟨ht, ?_, hoor (by decide)⟩
  rw [hpage (by decide) (by decide)]
  decide

/-- C7: every query shorter than 2 characters, including an absent one, is
rejected with the distinct InvalidQuery error and never reported as a
successful empty result set. -/
theorem c7_invalid_query (reg : Registry) (qP limitP : Option String)
    (h : qP = none ∨ ∃ s, qP = some s ∧ s.length < 2) :
    searchIdentities reg qP limitP = SearchResult.invalidQuery ∧
    ∀ r, searchIdentities reg qP limitP ≠ SearchResult.ok r := by
  have hmain : searchIdentities reg qP limitP = SearchResult.invalidQuery := by
    rcases h with h | ⟨s, hs, hlen⟩
    · rw [h]; rfl
    · rw [hs]
      simp [searchIdentities, hlen]
  refine ⟨hmain, fun r hr => ?_⟩
  rw [hmain] at hr
  exact SearchResult.noConfusion hr

theorem c7_witness :
    searchIdentities regW6 (some "x") none = SearchResult.invalidQuery :=
  (c7_invalid_query regW6 (some "x") none (Or.inr ⟨"x", rfl, by decide⟩)).1

theorem jsSlice_zero {α : Type} (l : List α) (lim : Int) (hl : 0 ≤ lim) :
    jsSlice l 0 lim = l.take lim.toNat := by
  have h := jsSlice_nonneg l 0 lim (le_refl 0) hl
  rw [zero_add] at h
  simpa using h

theorem optIncl_iff (o : Option String) (q : String) :
    optIncl o q = true ↔ ∃ s, o = some s ∧ ∃ l r, (jsToLower s).data = l ++ q.data ++ r := by
  cases o with
  | none => simp [optIncl]
  | some s => simp [optIncl, strIncludes_iff]

/-- C6: for a valid query, Search returns exactly the summarized identities
whose lowercased name, description, some platform handle, or fingerprint
contains the lowercased query as a substring, in snapshot order, truncated
to the clamped limit (default 20, maximum 100); an empty platform-handle
value never matches and causes no error. -/
theorem c6_search_characterization (reg : Registry) (q : String) (limitP : Option String)
    (hq : 2 ≤ q.length) (hl : 0 ≤ searchLimit limitP) :
    searchIdentities reg (some q) limitP = SearchResult.ok
      { query := q
        count := (((reg.identities.filter (searchMatch (jsToLower q))).take
            (searchLimit limitP).toNat).map summarize).length
        results := ((reg.identities.filter (searchMatch (jsToLower q))).take
            (searchLimit limitP).toNat).map summarize } ∧
    (limitP = none → searchLimit limitP = 20) ∧
    searchLimit limitP ≤ 100 ∧
    (∀ i, searchMatch (jsToLower q) i = true ↔
      ((∃ s, i.name = some s ∧ ∃ l r, (jsToLower s).data = l ++ (jsToLower q).data ++ r) ∨
       (∃ s, i.description = some s ∧ ∃ l r, (jsToLower s).data = l ++ (jsToLower q).data ++ r) ∨
       (∃ p ∈ i.platforms, ∃ l r, (jsToLower p.2).data = l ++ (jsToLower q).data ++ r) ∨
       (∃ s, i.gpgFingerprint = some s ∧
         ∃ l r, (jsToLower s).data = l ++ (jsToLower q).data ++ r))) ∧
    (∀ i : Identity, ∀ p ∈ i.platforms, p.2 = "" →
      ¬ ∃ l r, (jsToLower p.2).data = l ++ (jsToLower q).data ++ r) := by
  refine ⟨?_, fun h => by rw [h]; rfl, min_le_right _ _, ?_, ?_⟩
  · simp only [searchIdentities]
    rw [if_neg (by omega : ¬ q.length < 2), jsSlice_zero _ _ hl]
  · intro i
    simp only [searchMatch, Bool.or_eq_true, optIncl_iff, List.any_eq_true, strIncludes_iff,
      or_assoc]
  · intro i p hp hempty
    rintro ⟨l, r, hlr⟩
    rw [hempty] at hlr
    have hnil : l ++ (jsToLower q).data ++ r = ([] : List Char) := hlr.symm
    have h1 := List.append_eq_nil.mp hnil
    have h2 := List.append_eq_nil.mp h1.1
    have hq0 : q.data.map Char.toLower = [] := h2.2
    have hqnil : q.data = [] := List.map_eq_nil_iff.mp hq0
    have hq00 : q.length = 0 := by
      rw [show q.length = q.data.length from rfl, hqnil]
      rfl
    omega

theorem c6_witness :
    searchIdentities regW6 (some "shrike") none = SearchResult.ok
      { query := "shrike", count := 2
        results := [summarize (normalizeIdentity (rawNamed "Shrike_Bot")),
          summarize (normalizeIdentity
            { rawNone with platforms := some [("twitter", "Shrike_Bot")] })] } :=
  ((c6_search_characterization regW6 "shrike" none (by decide) (by decide)).1).trans (by decide)

theorem foldl_count_keys (T : String → Bool) (c : String) :
    ∀ (ks : List String) (acc : String → Nat), ks.Nodup →
      (ks.foldl (fun a k => if T k then bump a k else a) acc) c
        = acc c + (if c ∈ ks ∧ T c = true then 1 else 0) := by
  intro ks
  induction ks with
  | nil =>
    intro acc _
    simp
  | cons k t ih =>
    intro acc hnd
    rw [List.foldl_cons, ih _ (List.nodup_cons.mp hnd).2]
    by_cases hck : c = k
    · subst hck
      have hct : c ∉ t := (List.nodup_cons.mp hnd).1
      by_cases hT : T c = true
      · simp [hT, hct, bump]
      · simp [hT, hct]
    · have hstep : (if T k = true then bump acc k else acc) c = acc c := by
        split_ifs
        · simp [bump, hck]
        · rfl
      rw [hstep]
      simp [List.mem_cons, hck]

theorem statsChainsStep_apply (acc : String → Nat) (i : Identity) (c : String)
    (hnd : (i.wallets.map Prod.fst).Nodup) :
    statsChainsStep acc i c
      = acc c + (if wTruthy (jsGet i.wallets c) = true then 1 else 0) := by
  unfold statsChainsStep
  rw [foldl_count_keys (fun k => wTruthy (jsGet i.wallets k)) c _ acc hnd]
  congr 1
  by_cases hT : wTruthy (jsGet i.wallets c) = true
  · have hc : c ∈ i.wallets.map Prod.fst := by
      by_contra hc
      rw [jsGet_eq_none hc] at hT
      simp [wTruthy] at hT
    simp [hc, hT]
  · simp [hT]

theorem statsChains_eval (ids : List Identity) :
    ∀ acc : String → Nat, (∀ i ∈ ids, (i.wallets.map Prod.fst).Nodup) → ∀ c,
      (ids.foldl statsChainsStep acc) c
        = acc c + (ids.filter (fun i => wTruthy (jsGet i.wallets c))).length := by
  induction ids with
  | nil =>
    intro acc _ c
    simp
  | cons i t ih =>
    intro acc hnd c
    rw [List.foldl_cons, ih _ (fun j hj => hnd j (List.mem_cons_of_mem _ hj)) c,
      statsChainsStep_apply _ _ _ (hnd i (List.mem_cons_self _ _)), List.filter_cons]
    by_cases hT : wTruthy (jsGet i.wallets c) = true
    · simp only [hT, if_true, List.length_cons]
      omega
    · simp only [hT, Bool.false_eq_true, if_false]
      omega

/-- C8: stats counts, per chain key, exactly the identities whose wallets
map holds a truthy (nonempty, defined) address under that key, assuming
each identity's wallet keys are duplicate-free as JS objects guarantee. -/
theorem c8_chain_counts (reg : Registry)
    (hnd : ∀ i ∈ reg.identities, (i.wallets.map Prod.fst).Nodup) (c : String) :
    (statsOf reg).chains c
      = (reg.identities.filter (fun i => wTruthy (jsGet i.wallets c))).length := by
  show (reg.identities.foldl statsChainsStep (fun _ => 0)) c = _
  rw [statsChains_eval reg.identities (fun _ => 0) hnd c]
  omega

theorem c8_witness : (statsOf regW8).chains "btc" = 1 :=
  (c8_chain_counts regW8 (by decide) "btc").trans (by decide)

theorem char_digit_ofNat (k : Nat) (hk : k < 10) :
    (Char.ofNat (48 + k)).isDigit = true ∧ (Char.ofNat (48 + k)).toNat = 48 + k := by
  interval_cases k <;> exact ⟨by decide, by decide⟩

theorem decDigits_ne_nil (n : Nat) : decDigits n ≠ [] := by
  rw [decDigits]
  split
  · simp
  · simp

theorem decDigits_digits (n : Nat) : ∀ c ∈ decDigits n, c.isDigit = true := by
  induction n using Nat.strong_induction_on with
  | _ n ih =>
    rw [decDigits]
    split
    · next h =>
      intro c hc
      rw [List.mem_singleton] at hc
      subst hc
      exact (char_digit_ofNat n h).1
    · next h =>
      intro c hc
      rw [List.mem_append] at hc
      rcases hc with hc | hc
      · exact ih (n / 10) (Nat.div_lt_self (by omega) (by omega)) c hc
      · rw [List.mem_singleton] at hc
        subst hc
        exact (char_digit_ofNat (n % 10) (Nat.mod_lt _ (by omega))).1

theorem decDigits_foldl (n : Nat) :
    ∀ a : Nat, (decDigits n).foldl (fun a c => 10 * a + (c.toNat - 48)) a
      = a * 10 ^ (decDigits n).length + n := by
  induction n using Nat.strong_induction_on with
  | _ n ih =>
    intro a
    rw [decDigits]
    split
    · next h =>
      have hc := (char_digit_ofNat n h).2
      simp only [List.foldl_cons, List.foldl_nil, List.length_singleton, pow_one, hc]
      omega
    · next h =>
      rw [List.foldl_append,
        ih (n / 10) (Nat.div_lt_self (by omega) (by omega)) a]
      have hc := (char_digit_ofNat (n % 10) (Nat.mod_lt _ (by omega))).2
      simp only [List.foldl_cons, List.foldl_nil, List.length_append,
        List.length_singleton, hc, pow_succ]
      have hsub : 48 + n % 10 - 48 = n % 10 := by omega
      rw [hsub]
      have hn : n = 10 * (n / 10) + n % 10 := by omega
      set L := (decDigits (n / 10)).length
      conv_rhs => rw [hn]
      ring

theorem digitsVal_dec (n : Nat) : digitsVal (decDigits n) = n := by
  have h := decDigits_foldl n 0
  simpa [digitsVal] using h

theorem takeWhile_isDigit_self (l : List Char) (h : ∀ x ∈ l, x.isDigit = true) :
    l.takeWhile Char.isDigit = l := by
  induction l with
  | nil => rfl
  | cons a t ih =>
    rw [List.takeWhile_cons, if_pos (h a (List.mem_cons_self _ _)),
      ih (fun x hx => h x (List.mem_cons_of_mem _ hx))]

theorem jsParseInt_decString (n : Nat) : jsParseInt (decString n) = some (n : Int) := by
  obtain ⟨c, cs, hcons⟩ : ∃ c cs, decDigits n = c :: cs := by
    cases h : decDigits n with
    | nil => exact absurd h (decDigits_ne_nil n)
    | cons c cs => exact ⟨c, cs, rfl⟩
  have hdig : ∀ x ∈ decDigits n, x.isDigit = true := decDigits_digits n
  have hc : c.isDigit = true := hdig c (by rw [hcons]; exact List.mem_cons_self _ _)
  have hall : ∀ x ∈ c :: cs, x.isDigit = true := by rw [← hcons]; exact hdig
  have hval : digitsVal (c :: cs) = n := by rw [← hcons]; exact digitsVal_dec n
  have hsp : (c == ' ') = false := by
    by_contra hcc
    rw [Bool.not_eq_false, beq_iff_eq] at hcc
    rw [hcc] at hc
    simp [Char.isDigit] at hc
  have hdata : (decString n).data = c :: cs := by
    show decDigits n = c :: cs
    exact hcons
  unfold jsParseInt
  rw [hdata, List.dropWhile_cons, hsp]
  simp only [Bool.false_eq_true, if_false]
  have hlead : leadDigitsVal (c :: cs) = some n := by
    unfold leadDigitsVal
    rw [takeWhile_isDigit_self _ hall]
    simp [hval]
  split
  · next heq =>
    exfalso
    obtain ⟨h1, _⟩ := List.cons.inj heq
    rw [h1] at hc
    simp [Char.isDigit] at hc
  · next heq =>
    exfalso
    obtain ⟨h1, _⟩ := List.cons.inj heq
    rw [h1] at hc
    simp [Char.isDigit] at hc
  · rw [hlead]
    rfl

theorem listOffset_decString (j : Nat) : listOffset (some (decString j)) = (j : Int) := by
  have h1 : jsParamInt (some (decString j)) 0 = some ((j : Nat) : Int) := jsParseInt_decString j
  unfold listOffset
  rw [h1]
  show (if (j : Int) = 0 then 0 else (j : Int)) = (j : Int)
  split_ifs with h
  · omega
  · rfl

theorem mem_take_head {α : Type} (x : α) (l : List α) (n : Nat) (hn : 0 < n) :
    x ∈ (x :: l).take n := by
  cases n with
  | zero => omega
  | succ m =>
    rw [List.take_succ_cons]
    exact List.mem_cons_self _ _

theorem foldl_vals_preserved {β γ : Type} (P : γ → Prop)
    (step : List (String × γ) → β → List (String × γ))
    (hstep : ∀ acc b, (∀ kv ∈ acc, P kv.2) → ∀ kv ∈ step acc b, P kv.2) :
    ∀ (l : List β) (acc : List (String × γ)),
      (∀ kv ∈ acc, P kv.2) → ∀ kv ∈ l.foldl step acc, P kv.2 := by
  intro l
  induction l with
  | nil => intro acc hacc; exact hacc
  | cons b t ih => intro acc hacc; exact ih _ (hstep acc b hacc)

theorem fpStep_vals (S : List Identity) (m : List (String × Identity)) (i : Identity)
    (hm : ∀ kv ∈ m, kv.2 ∈ S) (hi : i ∈ S) :
    ∀ kv ∈ fpStep m i, kv.2 ∈ S := by
  intro kv hkv
  cases hfp : i.gpgFingerprint with
  | none =>
    simp only [fpStep, hfp] at hkv
    exact hm kv hkv
  | some f =>
    by_cases hf : f = ""
    · have hf2 : (f == "") = true := by simp [hf]
      simp only [fpStep, hfp, hf2, if_true] at hkv
      exact hm kv hkv
    · have hf2 : (f == "") = false := by simp [hf]
      simp only [fpStep, hfp, hf2, Bool.false_eq_true, if_false] at hkv
      rcases jsSet_mem hkv with h | h
      · rcases jsSet_mem h with h | h
        · rcases jsSet_mem h with h | h
          · exact hm kv h
          · rw [h]; exact hi
        · rw [h]; exact hi
      · rw [h]; exact hi

theorem nameStep_vals (S : List Identity) (m : List (String × Identity)) (i : Identity)
    (hm : ∀ kv ∈ m, kv.2 ∈ S) (hi : i ∈ S) :
    ∀ kv ∈ nameStep m i, kv.2 ∈ S := by
  intro kv hkv
  cases hn : i.name with
  | none =>
    simp only [nameStep, hn] at hkv
    exact hm kv hkv
  | some nm =>
    by_cases hne : nm = ""
    · have h2 : (nm == "") = true := by simp [hne]
      simp only [nameStep, hn, h2, if_true] at hkv
      exact hm kv hkv
    · have h2 : (nm == "") = false := by simp [hne]
      simp only [nameStep, hn, h2, Bool.false_eq_true, if_false] at hkv
      rcases jsSet_mem hkv with h | h
      · exact hm kv h
      · rw [h]; exact hi

theorem walletStep_vals (S : List Identity) (m : List (String × Identity)) (i : Identity)
    (hm : ∀ kv ∈ m, kv.2 ∈ S) (hi : i ∈ S) :
    ∀ kv ∈ walletStep m i, kv.2 ∈ S := by
  unfold walletStep
  refine foldl_vals_preserved (fun j => j ∈ S) _ ?_ i.wallets m hm
  intro acc we hacc kv hkv
  cases hwe : we.2 with
  | none =>
    simp only [hwe] at hkv
    exact hacc kv hkv
  | some a =>
    simp only [hwe] at hkv
    by_cases ha : a = ""
    · have h2 : (a == "") = true := by simp [ha]
      rw [h2] at hkv
      simp only [if_true] at hkv
      exact hacc kv hkv
    · have h2 : (a == "") = false := by simp [ha]
      rw [h2] at hkv
      simp only [Bool.false_eq_true, if_false] at hkv
      rcases jsSet_mem hkv with h | h
      · exact hacc kv h
      · rw [h]; exact hi

theorem platformStep_vals (S : List Identity) (m : List (String × List (String × Identity)))
    (i : Identity) (hm : ∀ ps ∈ m, ∀ hv ∈ ps.2, hv.2 ∈ S) (hi : i ∈ S) :
    ∀ ps ∈ platformStep m i, ∀ hv ∈ ps.2, hv.2 ∈ S := by
  unfold platformStep
  refine foldl_vals_preserved (fun sub => ∀ hv ∈ sub, hv.2 ∈ S) _ ?_ i.platforms m hm
  intro acc pe hacc ps hps
  rcases jsSet_mem hps with h | h
  · exact hacc ps h
  · intro hv hhv
    rw [h] at hhv
    rcases jsSet_mem hhv with h2 | h2
    · cases hj : jsGet acc (jsToLower pe.1) with
      | none =>
        rw [hj] at h2
        simp at h2
      | some sub =>
        rw [hj] at h2
        exact hacc (jsToLower pe.1, sub) (jsGet_mem hj) hv h2
    · rw [h2]; exact hi

theorem indexIdentity_vals (S : List Identity) (idx : Indexes) (i : Identity)
    (h : idxValsOK S idx) (hi : i ∈ S) : idxValsOK S (indexIdentity idx i) :=
  ⟨fpStep_vals S _ i h.1 hi, nameStep_vals S _ i h.2.1 hi,
   platformStep_vals S _ i h.2.2.1 hi, walletStep_vals S _ i h.2.2.2 hi⟩

theorem buildIndexes_vals (ids : List Identity) : idxValsOK ids (buildIndexes ids) := by
  have hgen : ∀ (l : List Identity) (acc : Indexes), (∀ j ∈ l, j ∈ ids) → idxValsOK ids acc →
      idxValsOK ids (l.foldl indexIdentity acc) := by
    intro l
    induction l with
    | nil => intro acc _ h; exact h
    | cons j t ih =>
      intro acc hsub h
      exact ih _ (fun x hx => hsub x (List.mem_cons_of_mem _ hx))
        (indexIdentity_vals ids acc j h (hsub j (List.mem_cons_self _ _)))
  refine hgen ids emptyIndexes (fun _ h => h) ?_
  refine ⟨?_, ?_, ?_, ?_⟩ <;> intro kv hkv <;> exact absurd hkv (List.not_mem_nil _)

/-- C10: in a snapshot built from an existing directory, every identity
stored as a value in any of the four indexes belongs to the snapshot's
identity sequence; hence every successful point lookup returns an identity
that is counted in the snapshot's total and reachable through List. -/
theorem c10_index_integrity (files : List (Option Raw)) :
    (loadRegistry (some files)).indexes
        = some (buildIndexes (loadRegistry (some files)).identities) ∧
    idxValsOK (loadRegistry (some files)).identities
        (buildIndexes (loadRegistry (some files)).identities) ∧
    (∀ k i, getByFingerprint (loadRegistry (some files)) k = Lookup.ok i →
      i ∈ (loadRegistry (some files)).identities) ∧
    (∀ k i, getByName (loadRegistry (some files)) k = Lookup.ok i →
      i ∈ (loadRegistry (some files)).identities) ∧
    (∀ p h i, getByPlatform (loadRegistry (some files)) p h = PlatLookup.ok i →
      i ∈ (loadRegistry (some files)).identities) ∧
    (∀ k i, getByWallet (loadRegistry (some files)) k = Lookup.ok i →
      i ∈ (loadRegistry (some files)).identities) ∧
    (listIdentities (loadRegistry (some files)) none none).total
        = (loadRegistry (some files)).identities.length ∧
    (∀ i ∈ (loadRegistry (some files)).identities, ∃ off : String,
      summarize i
        ∈ (listIdentities (loadRegistry (some files)) (some "1000") (some off)).identities) := by
  have hvals := buildIndexes_vals (loadRegistry (some files)).identities
  refine ⟨rfl, hvals, ?_, ?_, ?_, ?_, rfl, ?_⟩
  · intro k i h
    simp only [getByFingerprint,
      show (loadRegistry (some files)).indexes
          = some (buildIndexes (loadRegistry (some files)).identities) from rfl] at h
    cases hg : jsGet (buildIndexes (loadRegistry (some files)).identities).byFingerprint
        (jsToLower k) with
    | none =>
      rw [hg] at h
      simp at h
    | some j =>
      rw [hg] at h
      simp at h
      rw [← h]
      exact hvals.1 _ (jsGet_mem hg)
  · intro k i h
    simp only [getByName,
      show (loadRegistry (some files)).indexes
          = some (buildIndexes (loadRegistry (some files)).identities) from rfl] at h
    cases hg : jsGet (buildIndexes (loadRegistry (some files)).identities).byName
        (jsToLower k) with
    | none =>
      rw [hg] at h
      simp at h
    | some j =>
      rw [hg] at h
      simp at h
      rw [← h]
      exact hvals.2.1 _ (jsGet_mem hg)
  · intro p hd i h
    simp only [getByPlatform,
      show (loadRegistry (some files)).indexes
          = some (buildIndexes (loadRegistry (some files)).identities) from rfl] at h
    cases hgp : jsGet (buildIndexes (loadRegistry (some files)).identities).byPlatform
        (jsToLower p) with
    | none =>
      rw [hgp] at h
      simp at h
    | some sub =>
      rw [hgp] at h
      have h2 : (match jsGet sub (jsToLower hd) with
          | some j => PlatLookup.ok j
          | none => PlatLookup.notFound p hd) = PlatLookup.ok i := h
      cases hgh : jsGet sub (jsToLower hd) with
      | none =>
        rw [hgh] at h2
        simp at h2
      | some j =>
        rw [hgh] at h2
        simp at h2
        rw [← h2]
        exact hvals.2.2.1 _ (jsGet_mem hgp) _ (jsGet_mem hgh)
  · intro k i h
    simp only [getByWallet,
      show (loadRegistry (some files)).indexes
          = some (buildIndexes (loadRegistry (some files)).identities) from rfl] at h
    cases hg : jsGet (buildIndexes (loadRegistry (some files)).identities).byWallet
        (jsToLower k) with
    | none =>
      rw [hg] at h
      simp at h
    | some j =>
      rw [hg] at h
      simp at h
      rw [← h]
      exact hvals.2.2.2 _ (jsGet_mem hg)
  · intro i hi
    obtain ⟨j, hj, hji⟩ := List.mem_iff_getElem.mp hi
    refine ⟨decString j, ?_⟩
    have ho : listOffset (some (decString j)) = (j : Int) := listOffset_decString j
    have hl : listLimit (some "1000") = 1000 := by decide
    show summarize i ∈ (jsSlice (loadRegistry (some files)).identities
        (listOffset (some (decString j)))
        (listOffset (some (decString j)) + listLimit (some "1000"))).map summarize
    rw [ho, hl, jsSlice_nonneg _ _ _ (by omega) (by omega), Int.toNat_natCast,
      show ((1000 : Int)).toNat = 1000 from rfl, List.drop_eq_getElem_cons hj, hji]
    exact List.mem_map_of_mem summarize (mem_take_head i _ 1000 (by omega))

theorem c10_witness :
    normalizeIdentity { rawNone with gpgFingerprint := some "ABCD1234ABCD1234" }
      ∈ (loadRegistry (some filesW10)).identities :=
  (c10_index_integrity filesW10).2.2.1 "ABCD1234ABCD1234" _ (by decide)

end Atp
